import Mathlib

/-!
Shallow embedding of the `iris` wavefront-sensing optimization core
(`iris/core.py`, `iris/utilities.py`, `iris/recipes/main.py`).

Conventions of the embedding:
* numpy arrays of floats are modelled as `List ℚ` (idealized exact arithmetic);
  the Euclidean reducer, which uses a real square root, is modelled over `ℝ`;
* a Python dict with string keys is modelled as an insertion-ordered
  association list (`dictInsert` updates in place or appends, like CPython);
* Python functions that can raise are modelled with `Except`/`Option`;
* the external optics library (prysm) is abstracted by an explicit function
  parameter wherever its output feeds the code under study.
-/

namespace Iris

/-! ## Python dict model (string keys, rational values) -/

/-- Insertion-ordered association list standing for a Python `dict` with
`str` keys: later bindings of an existing key overwrite in place, new keys
append at the end. -/
abbrev Dict := List (String × ℚ)

/-- Embedding of `d[k] = v` on a Python dict: replace in place if `k` is present,
otherwise append the binding. -/
def dictInsert (d : Dict) (k : String) (v : ℚ) : Dict :=
  if d.any (fun p => p.1 = k) then
    d.map (fun p => if p.1 = k then (k, v) else p)
  else
    d ++ [(k, v)]

/-- Embedding of `d[k]` lookup (first binding wins; keys are unique by construction). -/
def dictLookup (d : Dict) (k : String) : Option ℚ :=
  (d.find? (fun p => p.1 = k)).map (fun p => p.2)

/-- The dict comprehension over `zip(keys, values)`: `zip` silently truncates
to the shorter operand, and duplicate keys keep the last value. -/
def dictOfZip (ks : List String) (vs : List ℚ) : Dict :=
  (ks.zip vs).foldl (fun d kv => dictInsert d kv.1 kv.2) []

/-! ## Configuration and pupil records -/

/-- The fields of the setup-parameters record (`SimulationConfig`) that
`iris/core.py` reads: `efl`, `fno`, `wvl`, `samples`, `focus_normed`,
and the spatial frequency grid `freqs`. -/
structure SimConfig where
  efl : ℚ
  fno : ℚ
  wvl : ℚ
  samples : ℕ
  focus_normed : Bool
  freqs : List ℚ
deriving DecidableEq

/-- The `prysm.FringeZernike` pupil as far as this code observes it: the
keyword Zernike coefficients plus the scalar construction arguments. -/
structure Pupil where
  zernikes : Dict
  base : ℕ
  epd : ℚ
  wavelength : ℚ
  samples : ℕ
  rms_norm : Bool
deriving DecidableEq

/-- Embedding of `config_codex_params_to_pupil(config, codex, params, defocus)` from
`iris/core.py`.  The codex dict is represented by its ordered list of values
(the code only reads `codex.values()`).  The dict comprehension zips codex
values with params (truncating); the statement
`pupil_pass_zernikes['Z4'] += defocus` raises `KeyError` when `'Z4'` is not a
key, modelled by `Except.error`. -/
def config_codex_params_to_pupil (config : SimConfig) (codex : List String)
    (params : List ℚ) (defocus : ℚ) : Except String Pupil :=
  let s := config
  let pupil_pass_zernikes := dictOfZip codex params
  match dictLookup pupil_pass_zernikes "Z4" with
  | none => Except.error "KeyError: Z4"
  | some z4 =>
      Except.ok
        { zernikes := dictInsert pupil_pass_zernikes "Z4" (z4 + defocus)
          base := 1
          epd := s.efl / s.fno
          wavelength := s.wvl
          samples := s.samples
          rms_norm := s.focus_normed }

/-! ## Cost primitives (`iris/core.py`)

Array-level semantics over an arbitrary linear ordered field; `ℚ`
instantiates every claim that needs computation, `ℝ` the Euclidean reducer. -/

/-- Embedding of `mtf_cost_core_main`: raw signed differences `true − simulated` for the
tangential and sagittal curves (numpy elementwise subtraction). -/
def mtf_cost_core_main {α : Type} [LinearOrderedField α]
    (true_tan true_sag sim_tan sim_sag : List α) : List α × List α :=
  (true_tan.zipWith (fun a b => a - b) sim_tan,
   true_sag.zipWith (fun a b => a - b) sim_sag)

/-- Embedding of `_mtf_cost_core_diffractiondiv`: divide both differences elementwise by
the diffraction-limited MTF curve (the module-global `diffraction`, passed
here explicitly). -/
def _mtf_cost_core_diffractiondiv {α : Type} [LinearOrderedField α]
    (diffraction : List α) (difference_t difference_s : List α) :
    List α × List α :=
  (difference_t.zipWith (fun a b => a / b) diffraction,
   difference_s.zipWith (fun a b => a / b) diffraction)

/-- Embedding of `_mtf_cost_core_manhattan`: `abs(difference).sum()` for each azimuth. -/
def _mtf_cost_core_manhattan {α : Type} [LinearOrderedField α]
    (difference_t difference_s : List α) : α × α :=
  ((difference_t.map (fun x => |x|)).sum,
   (difference_s.map (fun x => |x|)).sum)

/-- Embedding of `_mtf_cost_core_euclidian`: `sqrt(difference ** 2).sum()` for each
azimuth; the numpy square root is the real square root. -/
noncomputable def _mtf_cost_core_euclidian
    (difference_t difference_s : List ℝ) : ℝ × ℝ :=
  ((difference_t.map (fun x => Real.sqrt (x ^ 2))).sum,
   (difference_s.map (fun x => Real.sqrt (x ^ 2))).sum)

/-- Embedding of `_mtf_cost_core_sumsquarediff`: `(difference ** 2).sum()` for each
azimuth. -/
def _mtf_cost_core_sumsquarediff {α : Type} [LinearOrderedField α]
    (difference_t difference_s : List α) : α × α :=
  ((difference_t.map (fun x => x ^ 2)).sum,
   (difference_s.map (fun x => x ^ 2)).sum)

/-- Embedding of `_mtf_cost_core_addreduce`: add the two (scalar) azimuth costs. -/
def _mtf_cost_core_addreduce {α : Type} [LinearOrderedField α]
    (difference_t difference_s : α) : α :=
  difference_t + difference_s

/-- The scalar cost described by the diffraction-normalization pipeline: raw
difference (`mtf_cost_core_main`), then `_mtf_cost_core_diffractiondiv`,
then `_mtf_cost_core_sumsquarediff`, then `_mtf_cost_core_addreduce`. -/
def diffraction_sos_cost (diffraction true_tan true_sag sim_tan sim_sag :
    List ℚ) : ℚ :=
  let raw := mtf_cost_core_main true_tan true_sag sim_tan sim_sag
  let normed := _mtf_cost_core_diffractiondiv diffraction raw.1 raw.2
  let reduced := _mtf_cost_core_sumsquarediff normed.1 normed.2
  _mtf_cost_core_addreduce reduced.1 reduced.2

/-- The scalar cost of the default pipeline: raw difference, sum-of-squared
differences, add-reduce. -/
def sos_cost (true_tan true_sag sim_tan sim_sag : List ℚ) : ℚ :=
  let raw := mtf_cost_core_main true_tan true_sag sim_tan sim_sag
  let reduced := _mtf_cost_core_sumsquarediff raw.1 raw.2
  _mtf_cost_core_addreduce reduced.1 reduced.2

/-! ## Pointwise list lemmas for the cost primitives -/

lemma zipWith_sub_map_mul (k : ℚ) (a b : List ℚ) :
    (a.map (fun x => k * x)).zipWith (fun x y => x - y) (b.map (fun x => k * x)) =
      (a.zipWith (fun x y => x - y) b).map (fun x => k * x) := by
  induction a generalizing b with
  | nil => simp
  | cons x xs ih =>
      cases b with
      | nil => simp
      | cons y ys => simp [ih ys, mul_sub]

lemma zipWith_div_map_mul (k : ℚ) (hk : k ≠ 0) (a b : List ℚ) :
    (a.map (fun x => k * x)).zipWith (fun x y => x / y) (b.map (fun x => k * x)) =
      a.zipWith (fun x y => x / y) b := by
  induction a generalizing b with
  | nil => simp
  | cons x xs ih =>
      cases b with
      | nil => simp
      | cons y ys => simp [ih ys, mul_div_mul_left _ _ hk]

lemma zipWith_sub_sq_comm (a b : List ℚ) :
    (a.zipWith (fun x y => x - y) b).map (fun x => x ^ 2) =
      (b.zipWith (fun x y => x - y) a).map (fun x => x ^ 2) := by
  induction a generalizing b with
  | nil => cases b <;> simp
  | cons x xs ih =>
      cases b with
      | nil => simp
      | cons y ys =>
          simp only [List.zipWith_cons_cons, List.map_cons, ih ys,
            List.cons.injEq, and_true]
          ring

/-! ## Claims about the cost primitives -/

/-- C5 counterexample: multiplying only the truth curve and the diffraction
curve (not the simulated curve) by `k = 2` changes the
diffraction-normalized sum-of-squares cost, so the claim as stated is false.
Input: truth tan `[1]`, truth sag `[0]`, simulated tan `[1/2]`, simulated
sag `[0]`, diffraction `[1]`. -/
theorem diffraction_scale_truth_only_counterexample :
    diffraction_sos_cost [2] [2] [0] [1/2] [0] ≠
      diffraction_sos_cost [1] [1] [0] [1/2] [0] := by
  simp only [diffraction_sos_cost, mtf_cost_core_main,
    _mtf_cost_core_diffractiondiv, _mtf_cost_core_sumsquarediff,
    _mtf_cost_core_addreduce, List.zipWith_cons_cons, List.zipWith_nil_left,
    List.zipWith_nil_right, List.map_cons, List.map_nil, List.sum_cons,
    List.sum_nil]
  norm_num

/-- C5 (amended): multiplying the truth curves, the simulated curves and the
diffraction curve all by the same nonzero constant `k` leaves the
diffraction-normalized sum-of-squares cost unchanged. -/
theorem diffraction_sos_cost_scale_invariant (k : ℚ) (hk : k ≠ 0)
    (diffraction true_tan true_sag sim_tan sim_sag : List ℚ) :
    diffraction_sos_cost (diffraction.map (fun x => k * x))
      (true_tan.map (fun x => k * x)) (true_sag.map (fun x => k * x))
      (sim_tan.map (fun x => k * x)) (sim_sag.map (fun x => k * x)) =
      diffraction_sos_cost diffraction true_tan true_sag sim_tan sim_sag := by
  simp only [diffraction_sos_cost, mtf_cost_core_main,
    _mtf_cost_core_diffractiondiv, _mtf_cost_core_sumsquarediff,
    _mtf_cost_core_addreduce, zipWith_sub_map_mul, zipWith_div_map_mul k hk]

/-- C5 witness: the amended scale invariance evaluated at `k = 2` on concrete
curves. -/
theorem diffraction_sos_cost_scale_invariant_witness :
    (2:ℚ) ≠ 0 ∧
      diffraction_sos_cost ([1, 2].map (fun x => (2:ℚ) * x))
          ([1, 3].map (fun x => (2:ℚ) * x)) ([0, 1].map (fun x => (2:ℚ) * x))
          ([1/2, 3/2].map (fun x => (2:ℚ) * x))
          ([0, 1/2].map (fun x => (2:ℚ) * x)) =
        diffraction_sos_cost [1, 2] [1, 3] [0, 1] [1/2, 3/2] [0, 1/2] :=
  ⟨by decide,
    diffraction_sos_cost_scale_invariant 2 (by decide)
      [1, 2] [1, 3] [0, 1] [1/2, 3/2] [0, 1/2]⟩

/-- C6: on every pair of difference arrays the Euclidean reducer (sum of
square roots of squares) returns exactly the Manhattan reducer's value (sum
of absolute values). -/
theorem euclidian_eq_manhattan (difference_t difference_s : List ℝ) :
    _mtf_cost_core_euclidian difference_t difference_s =
      _mtf_cost_core_manhattan difference_t difference_s := by
  have h : (fun x : ℝ => Real.sqrt (x ^ 2)) = fun x : ℝ => |x| := by
    funext x
    exact Real.sqrt_sq_eq_abs x
  simp only [_mtf_cost_core_euclidian, _mtf_cost_core_manhattan, h]

/-- C8: the scalar produced by the raw difference, the sum-of-squared
difference reduction and the add-reduce terminal is unchanged when the truth
and simulated inputs are swapped. -/
theorem sos_cost_swap_symmetric (true_tan true_sag sim_tan sim_sag : List ℚ) :
    sos_cost true_tan true_sag sim_tan sim_sag =
      sos_cost sim_tan sim_sag true_tan true_sag := by
  simp only [sos_cost, mtf_cost_core_main, _mtf_cost_core_sumsquarediff,
    _mtf_cost_core_addreduce]
  rw [zipWith_sub_sq_comm true_tan sim_tan, zipWith_sub_sq_comm true_sag sim_sag]

/-- C9: on all-zero tangential and sagittal difference arrays, each terminal
reducer (Manhattan, Euclidean, sum-of-squared-difference) followed by the
add-reduce terminal returns 0. -/
theorem reducers_zero_on_zero (n m : ℕ) :
    _mtf_cost_core_addreduce
        (_mtf_cost_core_manhattan (List.replicate n (0:ℚ)) (List.replicate m 0)).1
        (_mtf_cost_core_manhattan (List.replicate n (0:ℚ)) (List.replicate m 0)).2 = 0 ∧
      _mtf_cost_core_addreduce
        (_mtf_cost_core_euclidian (List.replicate n (0:ℝ)) (List.replicate m 0)).1
        (_mtf_cost_core_euclidian (List.replicate n (0:ℝ)) (List.replicate m 0)).2 = 0 ∧
      _mtf_cost_core_addreduce
        (_mtf_cost_core_sumsquarediff (List.replicate n (0:ℚ)) (List.replicate m 0)).1
        (_mtf_cost_core_sumsquarediff (List.replicate n (0:ℚ)) (List.replicate m 0)).2 = 0 := by
  refine ⟨?_, ?_, ?_⟩ <;>
    simp [_mtf_cost_core_manhattan, _mtf_cost_core_euclidian,
      _mtf_cost_core_sumsquarediff, _mtf_cost_core_addreduce,
      List.map_replicate, List.sum_replicate]

/-! ## Dict lemmas -/

/-- Option fallback used to state the fold-lookup lemma. -/
def lookupOr (o fallback : Option ℚ) : Option ℚ :=
  match o with
  | some v => some v
  | none => fallback

lemma find?_map_replace_ne (t : Dict) (k k' : String) (v : ℚ) (h : k' ≠ k) :
    (t.map (fun p => if p.1 = k then (k, v) else p)).find?
        (fun p => p.1 = k') = t.find? (fun p => p.1 = k') := by
  induction t with
  | nil => rfl
  | cons p t ih =>
      by_cases hp : p.1 = k
      · rw [List.map_cons, if_pos hp,
          List.find?_cons_of_neg _ (by simp [Ne.symm h]),
          List.find?_cons_of_neg _ (by simp [hp, Ne.symm h]), ih]
      · rw [List.map_cons, if_neg hp]
        by_cases hq : p.1 = k'
        · rw [List.find?_cons_of_pos _ (by simp [hq]),
            List.find?_cons_of_pos _ (by simp [hq])]
        · rw [List.find?_cons_of_neg _ (by simp [hq]),
            List.find?_cons_of_neg _ (by simp [hq]), ih]

lemma find?_map_replace_self (t : Dict) (k : String) (v : ℚ)
    (h : t.any (fun p => p.1 = k) = true) :
    (t.map (fun p => if p.1 = k then (k, v) else p)).find?
        (fun p => p.1 = k) = some (k, v) := by
  induction t with
  | nil => simp at h
  | cons p t ih =>
      by_cases hp : p.1 = k
      · rw [List.map_cons, if_pos hp, List.find?_cons_of_pos _ (by simp)]
      · rw [List.map_cons, if_neg hp,
          List.find?_cons_of_neg _ (by simp [hp])]
        apply ih
        simpa [hp] using h

lemma dictLookup_dictInsert (d : Dict) (k k' : String) (v : ℚ) :
    dictLookup (dictInsert d k v) k' =
      if k' = k then some v else dictLookup d k' := by
  unfold dictInsert dictLookup
  by_cases hany : d.any (fun p => p.1 = k) = true
  · rw [if_pos hany]
    by_cases hk : k' = k
    · rw [if_pos hk, hk, find?_map_replace_self d k v hany]
      rfl
    · rw [if_neg hk, find?_map_replace_ne d k k' v hk]
  · rw [if_neg hany, List.find?_append]
    have hnone : d.find? (fun p => p.1 = k) = none := by
      apply List.find?_eq_none.mpr
      intro x hx
      simp only [decide_eq_true_eq]
      intro hxk
      exact hany (List.any_eq_true.mpr ⟨x, hx, by simp [hxk]⟩)
    by_cases hk : k' = k
    · rw [if_pos hk, hk, hnone]
      simp
    · rw [if_neg hk]
      have : ([(k, v)].find? (fun p => p.1 = k')) = none := by
        simp [Ne.symm hk]
      rw [this]
      cases d.find? (fun p => p.1 = k') <;> rfl

lemma dictLookup_foldl_insert (l : List (String × ℚ)) (d : Dict) (k : String) :
    dictLookup (l.foldl (fun d kv => dictInsert d kv.1 kv.2) d) k =
      lookupOr ((l.reverse.find? (fun p => p.1 = k)).map (fun p => p.2))
        (dictLookup d k) := by
  induction l generalizing d with
  | nil => simp [lookupOr]
  | cons x t ih =>
      rw [List.foldl_cons, ih (dictInsert d x.1 x.2), List.reverse_cons,
        List.find?_append, dictLookup_dictInsert]
      cases hfind : t.reverse.find? (fun p => p.1 = k) with
      | some q => simp [lookupOr]
      | none =>
          by_cases hk : k = x.1
          · have : ([x].find? (fun p => p.1 = k)) = some x := by
              simp [hk]
            simp [lookupOr, this, hk]
          · have : ([x].find? (fun p => p.1 = k)) = none := by
              simp [Ne.symm hk]
            simp [lookupOr, this, hk]

lemma dictLookup_dictOfZip (ks : List String) (vs : List ℚ) (k : String) :
    dictLookup (dictOfZip ks vs) k =
      ((ks.zip vs).reverse.find? (fun p => p.1 = k)).map (fun p => p.2) := by
  unfold dictOfZip
  rw [dictLookup_foldl_insert]
  cases h : ((ks.zip vs).reverse.find? (fun p => p.1 = k)) <;>
    simp [lookupOr, dictLookup]

lemma find?_reverse_of_unique (L : List (String × ℚ)) (i : ℕ) (key : String)
    (v : ℚ) (hL : L.get? i = some (key, v))
    (huniq : ∀ j q, L.get? j = some q → q.1 = key → j = i) :
    L.reverse.find? (fun p => p.1 = key) = some (key, v) := by
  induction L generalizing i with
  | nil => simp at hL
  | cons a t ih =>
      rw [List.reverse_cons, List.find?_append]
      cases i with
      | zero =>
          have ha : a = (key, v) := by simpa using hL
          have hnone : t.reverse.find? (fun p => p.1 = key) = none := by
            apply List.find?_eq_none.mpr
            intro x hx
            rw [List.mem_reverse] at hx
            obtain ⟨j, hj⟩ := List.mem_iff_get?.mp hx
            intro hpx
            have := huniq (j + 1) x (by simpa using hj) (by simpa using hpx)
            omega
          rw [hnone, ha]
          simp
      | succ j =>
          have ht : t.get? j = some (key, v) := by simpa using hL
          have huniq' : ∀ j' q, t.get? j' = some q → q.1 = key → j' = j := by
            intro j' q hq hk
            have := huniq (j' + 1) q (by simpa using hq) hk
            omega
          rw [ih j ht huniq']
          rfl

lemma zip_get?_of_get? (ks : List String) (vs : List ℚ) (i : ℕ) (a : String)
    (b : ℚ) (h1 : ks.get? i = some a) (h2 : vs.get? i = some b) :
    (ks.zip vs).get? i = some (a, b) := by
  induction ks generalizing vs i with
  | nil => simp at h1
  | cons x t ih =>
      cases vs with
      | nil => simp at h2
      | cons y u =>
          cases i with
          | zero =>
              have hx : x = a := by simpa using h1
              have hy : y = b := by simpa using h2
              simp [List.zip_cons_cons, hx, hy]
          | succ j =>
              simpa using ih u j (by simpa using h1) (by simpa using h2)

lemma get?_fst_of_zip_get? (ks : List String) (vs : List ℚ) (j : ℕ)
    (q : String × ℚ) (h : (ks.zip vs).get? j = some q) :
    ks.get? j = some q.1 := by
  induction ks generalizing vs j with
  | nil => simp [List.zip] at h
  | cons x t ih =>
      cases vs with
      | nil => simp [List.zip] at h
      | cons y u =>
          cases j with
          | zero =>
              have : (x, y) = q := by simpa using h
              simp [← this]
          | succ j' => simpa using ih u j' (by simpa using h)

/-! ## Claims about `config_codex_params_to_pupil` -/

/-- Truthy check on an `Except` value that does not inspect the payload. -/
def isOkE {ε α : Type} : Except ε α → Bool
  | Except.ok _ => true
  | Except.error _ => false

/-- Sample optical configuration used by concrete instances. -/
def sampleConfig : SimConfig :=
  { efl := 100, fno := 4, wvl := 1/2, samples := 128, focus_normed := false
    freqs := [0, 10, 20] }

lemma zip_eq_zip_take (a : List String) (b : List ℚ) :
    a.zip b = (a.take (min a.length b.length)).zip
      (b.take (min a.length b.length)) := by
  induction a generalizing b with
  | nil => simp
  | cons x t ih =>
      cases b with
      | nil => simp
      | cons y u =>
          simp only [List.length_cons, Nat.succ_min_succ, List.take_succ_cons,
            List.zip_cons_cons]
          rw [← ih u]

/-- C1 counterexample: a codex of length 4 paired with a parameter vector of
length 3 raises no error at all on the solve path's pupil construction — the
`zip` inside the dict comprehension silently truncates the pairing, so the
claimed configuration error never happens. -/
theorem mismatched_lengths_no_error_counterexample :
    (["Z4", "Z5", "Z6", "Z7"] : List String).length ≠
        ([1, 2, 3] : List ℚ).length ∧
      isOkE (config_codex_params_to_pupil sampleConfig
        ["Z4", "Z5", "Z6", "Z7"] [1, 2, 3] 0) = true := by
  constructor
  · decide
  · rfl

/-- C1 (amended): a codex/parameter length mismatch is not detected anywhere
on the solve path; `config_codex_params_to_pupil` behaves exactly as if both
sequences had been truncated to the shorter length, silently dropping the
unpaired tail. -/
theorem codex_params_silent_truncation (config : SimConfig)
    (codex : List String) (params : List ℚ) (defocus : ℚ) :
    config_codex_params_to_pupil config codex params defocus =
      config_codex_params_to_pupil config
        (codex.take (min codex.length params.length))
        (params.take (min codex.length params.length)) defocus := by
  unfold config_codex_params_to_pupil dictOfZip
  rw [← zip_eq_zip_take]

/-- C7: when the codex maps index `i` (uniquely) to the defocus term `Z4`,
the built pupil's `Z4` coefficient is `params[i] + defocus`: the plane's
defocus diversity is added on top of the parameter's own contribution. -/
theorem pupil_z4_adds_defocus (config : SimConfig) (codex : List String)
    (params : List ℚ) (defocus : ℚ) (i : ℕ) (pi : ℚ)
    (hcodex : codex.get? i = some "Z4")
    (hparam : params.get? i = some pi)
    (huniq : ∀ j, j < codex.length → codex.get? j = some "Z4" → j = i) :
    ∃ p, config_codex_params_to_pupil config codex params defocus =
        Except.ok p ∧
      dictLookup p.zernikes "Z4" = some (pi + defocus) := by
  have hzip : (codex.zip params).get? i = some ("Z4", pi) :=
    zip_get?_of_get? codex params i _ _ hcodex hparam
  have huniq' : ∀ j q, (codex.zip params).get? j = some q → q.1 = "Z4" →
      j = i := by
    intro j q hq hk
    have hj : codex.get? j = some q.1 := get?_fst_of_zip_get? codex params j q hq
    have hlt : j < codex.length := by
      rcases List.get?_eq_some.mp hj with ⟨hl, _⟩
      exact hl
    exact huniq j hlt (by rw [hj, hk])
  have hfind := find?_reverse_of_unique (codex.zip params) i "Z4" pi hzip huniq'
  have hlook : dictLookup (dictOfZip codex params) "Z4" = some pi := by
    rw [dictLookup_dictOfZip, hfind]
    rfl
  have hcc : config_codex_params_to_pupil config codex params defocus =
      Except.ok
        { zernikes := dictInsert (dictOfZip codex params) "Z4" (pi + defocus)
          base := 1
          epd := config.efl / config.fno
          wavelength := config.wvl
          samples := config.samples
          rms_norm := config.focus_normed } := by
    simp only [config_codex_params_to_pupil]
    rw [hlook]
  refine ⟨_, hcc, ?_⟩
  rw [dictLookup_dictInsert]
  simp

/-- C7 witness: codex `["Z4", "Z9"]`, parameters `[5, 7]`, defocus `3`; index
0 maps to `Z4` and the pupil's `Z4` entry is `5 + 3`. -/
theorem pupil_z4_adds_defocus_witness :
    (["Z4", "Z9"] : List String).get? 0 = some "Z4" ∧
      ([5, 7] : List ℚ).get? 0 = some 5 ∧
      (∀ j, j < (["Z4", "Z9"] : List String).length →
        (["Z4", "Z9"] : List String).get? j = some "Z4" → j = 0) ∧
      ∃ p, config_codex_params_to_pupil sampleConfig ["Z4", "Z9"] [5, 7] 3 =
          Except.ok p ∧
        dictLookup p.zernikes "Z4" = some (5 + 3) :=
  ⟨rfl, rfl, by decide,
    pupil_z4_adds_defocus sampleConfig ["Z4", "Z9"] [5, 7] 3 0 5 rfl rfl
      (by decide)⟩

/-- C10: when the codex values do not contain `Z4`, the unconditional
`pupil_pass_zernikes['Z4'] += defocus` raises `KeyError`, whatever the
defocus value (including 0). -/
theorem pupil_keyerror_without_z4 (config : SimConfig) (codex : List String)
    (params : List ℚ) (defocus : ℚ) (h : "Z4" ∉ codex) :
    config_codex_params_to_pupil config codex params defocus =
      Except.error "KeyError: Z4" := by
  have hlook : dictLookup (dictOfZip codex params) "Z4" = none := by
    rw [dictLookup_dictOfZip]
    have : (codex.zip params).reverse.find? (fun p => p.1 = "Z4") = none := by
      apply List.find?_eq_none.mpr
      intro x hx
      rw [List.mem_reverse] at hx
      have hmem : x.1 ∈ codex := by
        rcases x with ⟨x1, x2⟩
        exact (List.of_mem_zip hx).1
      simp only [decide_eq_true_eq]
      intro hpx
      exact h (hpx ▸ hmem)
    rw [this]
    rfl
  simp only [config_codex_params_to_pupil]
  rw [hlook]

/-- C10 witness: codex `["Z1", "Z9"]` (no `Z4`) with defocus `0` produces the
`KeyError`. -/
theorem pupil_keyerror_without_z4_witness :
    ("Z4" ∉ (["Z1", "Z9"] : List String)) ∧
      config_codex_params_to_pupil sampleConfig ["Z1", "Z9"] [1, 2] 0 =
        Except.error "KeyError: Z4" :=
  ⟨by decide,
    pupil_keyerror_without_z4 sampleConfig ["Z1", "Z9"] [1, 2] 0 (by decide)⟩

/-! ## Per-focus-plane evaluator and aggregate objective (`iris/core.py`)

The cost pipeline passes numpy values that start as arrays and end as
scalars (the chain's terminal stages return 0-d values); `PyVal` models this
duck typing.  The external prysm calls `MTF.from_pupil` and
`mtf_ts_extractor` are abstracted by an explicit `mtf_model` function
parameter: both the pool and the sequential branch call the very same
function, so every claim below quantifies over it. -/

/-- Duck-typed numpy value flowing through the cost pipeline: an array or a
scalar. -/
inductive PyVal : Type where
  | arr : List ℚ → PyVal
  | scl : ℚ → PyVal
deriving DecidableEq

/-- numpy addition, with scalar broadcasting over arrays. -/
def pyAdd : PyVal → PyVal → PyVal
  | PyVal.arr a, PyVal.arr b => PyVal.arr (a.zipWith (fun x y => x + y) b)
  | PyVal.scl a, PyVal.scl b => PyVal.scl (a + b)
  | PyVal.arr a, PyVal.scl b => PyVal.arr (a.map (fun x => x + b))
  | PyVal.scl a, PyVal.arr b => PyVal.arr (b.map (fun x => a + x))

/-- Multiplication of a numpy value by a scalar coefficient. -/
def pyMulScalar (k : ℚ) : PyVal → PyVal
  | PyVal.arr a => PyVal.arr (a.map (fun x => k * x))
  | PyVal.scl x => PyVal.scl (k * x)

/-- A non-terminal cost-pipeline stage: takes the tangential and sagittal
values, returns the transformed pair. -/
abbrev CostStage := PyVal → PyVal → PyVal × PyVal

/-- The terminal cost-pipeline reducer. -/
abbrev CostFinal := PyVal → PyVal → PyVal

/-- PyVal lifting of `(x ** 2).sum()` (for a scalar, squaring). -/
def pvSquareSum : PyVal → PyVal
  | PyVal.arr a => PyVal.scl ((a.map (fun x => x ^ 2)).sum)
  | PyVal.scl x => PyVal.scl (x ^ 2)

/-- Embedding of `_mtf_cost_core_sumsquarediff` as a pipeline stage. -/
def sumsquarediff_stage : CostStage := fun dt ds => (pvSquareSum dt, pvSquareSum ds)

/-- Embedding of `COST_CHAIN_DEFAULT = (_mtf_cost_core_sumsquarediff,)`. -/
def COST_CHAIN_DEFAULT : List CostStage := [sumsquarediff_stage]

/-- Embedding of `COST_FINAL_DEFAULT = _mtf_cost_core_addreduce`. -/
def COST_FINAL_DEFAULT : CostFinal := pyAdd

/-- Embedding of `realize_focus_plane(params, t_true, s_true, defocus, cost_chain,
cost_final)` from `iris/core.py`: build the pupil through the codex, obtain
the simulated tangential/sagittal MTF through the external forward model,
form the raw differences, thread them through the cost chain, and reduce
with the terminal. -/
def realize_focus_plane (mtf_model : Pupil → ℚ → List ℚ → List ℚ × List ℚ)
    (setup_parameters : SimConfig) (decoder_ring : List String)
    (params : List ℚ) (t_true s_true : List ℚ) (defocus : ℚ)
    (cost_chain : List CostStage) (cost_final : CostFinal) :
    Except String PyVal :=
  match config_codex_params_to_pupil setup_parameters decoder_ring params
      defocus with
  | Except.error e => Except.error e
  | Except.ok prop_wvfront =>
      let ts := mtf_model prop_wvfront setup_parameters.efl
        setup_parameters.freqs
      let raw := mtf_cost_core_main t_true s_true ts.1 ts.2
      let reduced := cost_chain.foldl (fun p c => c p.1 p.2)
        (PyVal.arr raw.1, PyVal.arr raw.2)
      Except.ok (cost_final reduced.1 reduced.2)

/-- Embedding of `average_mse_focusplanes(costfcns)`: multiply the summed per-plane costs
by `delta_nu / (N * nu_max)`; reading `freqs[1]` of a too-short frequency
grid is an `IndexError`. -/
def average_mse_focusplanes (setup_parameters : SimConfig)
    (costfcns : List PyVal) : Except String PyVal :=
  match setup_parameters.freqs with
  | f0 :: f1 :: rest =>
      let delta_nu := f1 - f0
      let nu_max := (f0 :: f1 :: rest).getLastD 0
      let coef := delta_nu / ((costfcns.length : ℚ) * nu_max)
      Except.ok (pyMulScalar coef (costfcns.foldl pyAdd (PyVal.scl 0)))
  | _ => Except.error "IndexError"

/-- Python `zip` over three sequences (truncating to the shortest). -/
def zip3 {α β γ : Type} (a : List α) (b : List β) (c : List γ) :
    List (α × β × γ) :=
  a.zip (b.zip c)

/-- The sequential branch of `optfcn`: the explicit `for`-loop that appends
`realize_focus_plane` results in order, propagating the first exception. -/
def realize_loop {α : Type} (f : α → Except String PyVal) :
    List α → Except String (List PyVal)
  | [] => Except.ok []
  | x :: xs =>
      match f x with
      | Except.error e => Except.error e
      | Except.ok y =>
          match realize_loop f xs with
          | Except.error e => Except.error e
          | Except.ok ys => Except.ok (y :: ys)

/-- Embedding of `optfcn(wavefrontcoefs, cost_chain, cost_final)` from `iris/core.py`.
The module-global shared state (`setup_parameters`, `decoder_ring`, `pool`,
`t_true`, `s_true`, `defocus`) is passed explicitly; `prepare_globals`
broadcasts the same values to the workers and the parent, so both branches
see identical state.  `pool = true` is the `pool.starmap` branch (Pool
results come back in argument order), `pool = false` the sequential loop. -/
def optfcn (mtf_model : Pupil → ℚ → List ℚ → List ℚ × List ℚ)
    (setup_parameters : SimConfig) (decoder_ring : List String)
    (pool : Bool) (t_true s_true : List (List ℚ)) (defocus : List ℚ)
    (wavefrontcoefs : List ℚ) (cost_chain : Option (List CostStage))
    (cost_final : Option CostFinal) : Except String PyVal :=
  let cost_chain := cost_chain.getD COST_CHAIN_DEFAULT
  let cost_final := cost_final.getD COST_FINAL_DEFAULT
  if pool then
    match (zip3 t_true s_true defocus).mapM
        (fun tsd => realize_focus_plane mtf_model setup_parameters
          decoder_ring wavefrontcoefs tsd.1 tsd.2.1 tsd.2.2 cost_chain
          cost_final) with
    | Except.error e => Except.error e
    | Except.ok costfcn => average_mse_focusplanes setup_parameters costfcn
  else
    match realize_loop
        (fun tsd => realize_focus_plane mtf_model setup_parameters
          decoder_ring wavefrontcoefs tsd.1 tsd.2.1 tsd.2.2 cost_chain
          cost_final) (zip3 t_true s_true defocus) with
    | Except.error e => Except.error e
    | Except.ok costfcn => average_mse_focusplanes setup_parameters costfcn

lemma realize_loop_eq_mapM {α : Type} (f : α → Except String PyVal)
    (l : List α) : realize_loop f l = l.mapM f := by
  induction l with
  | nil => rfl
  | cons x xs ih =>
      rw [List.mapM_cons, ← ih]
      cases hfx : f x with
      | error e =>
          simp only [realize_loop, hfx]
          rfl
      | ok y =>
          cases hrec : realize_loop f xs with
          | error e =>
              simp only [realize_loop, hfx, hrec]
              rfl
          | ok ys =>
              simp only [realize_loop, hfx, hrec]
              rfl

/-- C2: for every forward model, shared state, cost pipeline, and parameter
vector, the pool (`starmap`) branch of `optfcn` returns exactly the same
aggregate cost as the sequential loop branch. -/
theorem optfcn_pool_eq_sequential
    (mtf_model : Pupil → ℚ → List ℚ → List ℚ × List ℚ)
    (setup_parameters : SimConfig) (decoder_ring : List String)
    (t_true s_true : List (List ℚ)) (defocus : List ℚ)
    (wavefrontcoefs : List ℚ) (cost_chain : Option (List CostStage))
    (cost_final : Option CostFinal) :
    optfcn mtf_model setup_parameters decoder_ring true t_true s_true defocus
        wavefrontcoefs cost_chain cost_final =
      optfcn mtf_model setup_parameters decoder_ring false t_true s_true
        defocus wavefrontcoefs cost_chain cost_final := by
  simp only [optfcn, if_true, if_false, Bool.false_eq_true, ite_true,
    ite_false, realize_loop_eq_mapM]

/-! ## Captured optimizer output parsing (`iris/utilities.py`)

Captured stdout is modelled as a list of characters. -/

/-- Python `\s` whitespace. -/
def isPySpace (c : Char) : Bool :=
  c = ' ' || c = '\t' || c = '\n' || c = '\r' || c = '\x0b' || c = '\x0c'

/-- Literal-prefix test: `litAt lit cs` is true when `cs` starts with
`lit`. -/
def litAt : List Char → List Char → Bool
  | [], _ => true
  | _ :: _, [] => false
  | l :: ls, c :: cs => l = c && litAt ls cs

/-- Literal `At iterate` scanned for by the cost parser's regex. -/
def atIterateLit : List Char := "At iterate".data

/-- Literal `f=` of the cost parser's regex. -/
def fEqualsLit : List Char := "f=".data

/-- Literal `RUNNING` scanned for by `split_lbfgsb_iters`. -/
def runningLit : List Char := "RUNNING".data

/-- One match attempt of the regex
`At iterate\s*\d*?\s*f=\s*-*?\d*.\d*D[+-]\d*` at the current position,
rendered deterministically: on L-BFGS-B's fixed-format output the
cost token always contains a decimal point, for which the greedy
whitespace/digit scan coincides with the backtracking search.  Returns the
matched text. -/
def matchAtIterate (cs : List Char) : Option (List Char) :=
  if litAt atIterateLit cs then
    let r1 := cs.drop atIterateLit.length
    let w1 := r1.takeWhile isPySpace
    let r2 := r1.dropWhile isPySpace
    let d1 := r2.takeWhile Char.isDigit
    let r3 := r2.dropWhile Char.isDigit
    let w2 := r3.takeWhile isPySpace
    let r4 := r3.dropWhile isPySpace
    if litAt fEqualsLit r4 then
      let r5 := r4.drop fEqualsLit.length
      let w3 := r5.takeWhile isPySpace
      let r6 := r5.dropWhile isPySpace
      let ms := r6.takeWhile (fun c => c = '-')
      let r7 := r6.dropWhile (fun c => c = '-')
      let d2 := r7.takeWhile Char.isDigit
      let r8 := r7.dropWhile Char.isDigit
      match r8 with
      | [] => none
      | dot :: r9 =>
          let d3 := r9.takeWhile Char.isDigit
          let r10 := r9.dropWhile Char.isDigit
          match r10 with
          | 'D' :: sgn :: r11 =>
              if sgn = '+' || sgn = '-' then
                let d4 := r11.takeWhile Char.isDigit
                some (atIterateLit ++ w1 ++ d1 ++ w2 ++ fEqualsLit ++ w3 ++
                  ms ++ d2 ++ dot :: (d3 ++ 'D' :: sgn :: d4))
              else none
          | _ => none
    else none
  else none

/-- All regex matches, scanning position by position (matches cannot
overlap: the interior of a match never contains the letter `A`, so this
agrees with `re.findall`'s non-overlapping left-to-right scan). -/
def findAtIterateMatches : List Char → List (List Char)
  | [] => []
  | c :: cs =>
      match matchAtIterate (c :: cs) with
      | some m => m :: findAtIterateMatches cs
      | none => findAtIterateMatches cs

/-- Python `str.split()`: split on whitespace runs, dropping empty words. -/
def pySplitWs (cs : List Char) : List (List Char) :=
  (cs.splitOnP isPySpace).filter (fun w => w ≠ [])

/-- Decimal digits to a natural number. -/
def digitsToNat (ds : List Char) : ℕ :=
  ds.foldl (fun n c => 10 * n + (c.toNat - 48)) 0

/-- Python `float` on a `D`-to-`E`-replaced Fortran token of the shape
`[-]ddd.dddE[+-]dd`; `none` models `ValueError` on other shapes. -/
def floatOfSci (cs : List Char) : Option ℚ :=
  let sr :=
    match cs with
    | '-' :: r => (true, r)
    | '+' :: r => (false, r)
    | r => (false, r)
  let ip := sr.2.takeWhile Char.isDigit
  let cs2 := sr.2.dropWhile Char.isDigit
  match cs2 with
  | '.' :: r =>
      let fp := r.takeWhile Char.isDigit
      let r2 := r.dropWhile Char.isDigit
      match r2 with
      | 'E' :: r3 =>
          let er :=
            match r3 with
            | '-' :: t => (true, t)
            | '+' :: t => (false, t)
            | t => (false, t)
          let ed := er.2.takeWhile Char.isDigit
          if er.2.dropWhile Char.isDigit = [] ∧ ed ≠ [] ∧ (ip ≠ [] ∨ fp ≠ [])
          then
            let mant : ℚ := (digitsToNat ip : ℚ) +
              (digitsToNat fp : ℚ) / ((10 : ℚ) ^ fp.length)
            let expv : ℚ :=
              if er.1 then ((1 : ℚ) / 10) ^ digitsToNat ed
              else (10 : ℚ) ^ digitsToNat ed
            some ((if sr.1 then (-1 : ℚ) else 1) * mant * expv)
          else none
      | _ => none
  | _ => none

/-- Embedding of `parse_cost_by_iter_lbfgsb(string)` from `iris/utilities.py`: find every
iterate-report match, take the last whitespace-separated token of each,
replace the Fortran `D` exponent marker by `E`, and read the value (the
match shape guarantees the read succeeds on genuine L-BFGS-B output; a
malformed token reads as 0). -/
def parse_cost_by_iter_lbfgsb (string : List Char) : List ℚ :=
  let lines_with_cost_function_values := findAtIterateMatches string
  let fortran_values := lines_with_cost_function_values.map
    (fun s => (pySplitWs s).getLastD [])
  fortran_values.map
    (fun s =>
      (floatOfSci (s.map (fun c => if c = 'D' then 'E' else c))).getD 0)

/-- Start offsets of every occurrence of `RUNNING` (the pattern cannot
overlap itself — no proper suffix of it is a prefix — so the
position-by-position scan agrees with `re.finditer`). -/
def runningStartsAux : List Char → ℕ → List ℕ
  | [], _ => []
  | c :: cs, i =>
      if litAt runningLit (c :: cs) then i :: runningStartsAux cs (i + 1)
      else runningStartsAux cs (i + 1)

/-- Embedding of `split_lbfgsb_iters(string)` from `iris/utilities.py`: slice the
captured text at each `RUNNING` banner, one slice per local optimizer
run. -/
def split_lbfgsb_iters (string : List Char) : List (List Char) :=
  let starts := runningStartsAux string 0
  (List.range starts.length).map (fun idx =>
    if idx ≠ starts.length - 1 then
      (string.take (starts.getD (idx + 1) 0)).drop (starts.getD idx 0)
    else
      string.drop (starts.getD idx 0))

/-! ## Local driver histories (`iris/recipes/main.py`, `opt_routine_lbfgsb`) -/

/-- One captured local L-BFGS-B solve as the local driver observes it: the
parameter snapshots passed to the per-iteration `callback`, and the text
the optimizer wrote to the redirected stdout. -/
structure LBFGSBRun where
  iterates : List (List ℚ)
  output : List Char

/-- Embedding of `result.x_iter` of `opt_routine_lbfgsb`: the guess is appended to
`parameter_vectors` before the solve and the callback appends one snapshot
per completed iteration. -/
def opt_routine_lbfgsb_x_iter (guess : List ℚ) (run : LBFGSBRun) :
    List (List ℚ) :=
  guess :: run.iterates

/-- Embedding of `result.fun_iter` of `opt_routine_lbfgsb`: the parse of the captured
optimizer output. -/
def opt_routine_lbfgsb_fun_iter (run : LBFGSBRun) : List ℚ :=
  parse_cost_by_iter_lbfgsb run.output

/-- Modelled from the wrapped optimizer (scipy's L-BFGS-B with `disp` set,
outside this repository): the run reports a cost line for the starting
point (`At iterate 0`) and one per completed iteration, while the callback
fires only once per completed iteration, so the parse yields exactly one
more entry than there are callback snapshots. -/
def LBFGSBOutputDiscipline (run : LBFGSBRun) : Prop :=
  (parse_cost_by_iter_lbfgsb run.output).length = run.iterates.length + 1

/-- A genuine captured transcript shape: one completed iteration, two
iterate report lines (iterate 0 and iterate 1). -/
def sampleLBFGSBRun : LBFGSBRun where
  iterates := [[1, 2]]
  output :=
    ("RUNNING THE L-BFGS-B CODE\n\n" ++
      "At iterate    0    f=  4.84131D+00    |proj g|=  1.29524D+01\n\n" ++
      "At iterate    1    f=  3.15404D+00    |proj g|=  7.29046D+00\n").data

/-- C3 counterexample: on a genuine one-iteration transcript the parameter
history (guess plus one snapshot, length 2) does not have length equal to
the cost history's length plus one — the cost history already has length 2
because iterate 0 is reported too. -/
theorem local_history_plus_one_counterexample :
    LBFGSBOutputDiscipline sampleLBFGSBRun ∧
      (opt_routine_lbfgsb_x_iter [0, 0] sampleLBFGSBRun).length ≠
        (opt_routine_lbfgsb_fun_iter sampleLBFGSBRun).length + 1 := by
  constructor
  · show (parse_cost_by_iter_lbfgsb sampleLBFGSBRun.output).length =
      sampleLBFGSBRun.iterates.length + 1
    decide
  · decide

/-- C3 (amended): with the guess prepended to the parameter history and the
optimizer reporting iterate 0 as well as each completed iteration, the
parameter history and the parsed cost history have the same length. -/
theorem local_history_lengths_equal (guess : List ℚ) (run : LBFGSBRun)
    (h : LBFGSBOutputDiscipline run) :
    (opt_routine_lbfgsb_x_iter guess run).length =
      (opt_routine_lbfgsb_fun_iter run).length := by
  simp only [LBFGSBOutputDiscipline] at h
  simp only [opt_routine_lbfgsb_x_iter, opt_routine_lbfgsb_fun_iter,
    List.length_cons]
  omega

/-- C3 witness: the amended equality on the concrete one-iteration
transcript. -/
theorem local_history_lengths_equal_witness :
    LBFGSBOutputDiscipline sampleLBFGSBRun ∧
      (opt_routine_lbfgsb_x_iter [0, 0] sampleLBFGSBRun).length =
        (opt_routine_lbfgsb_fun_iter sampleLBFGSBRun).length :=
  ⟨by unfold LBFGSBOutputDiscipline; decide,
    local_history_lengths_equal [0, 0] sampleLBFGSBRun
      (by unfold LBFGSBOutputDiscipline; decide)⟩

/-! ## Global driver histories (`iris/recipes/main.py`,
`opt_routine_basinhopping`) -/

/-- One local-minimize segment of a basin-hopping run as the driver observes
it: the `cb_local` parameter snapshots, the `optwrapper` function-evaluation
log, and the segment's share of the captured stdout (one `RUNNING` banner
each). -/
structure BasinChunk where
  iterates : List (List ℚ)
  fevals : List (List ℚ)
  txt : List Char

/-- Modelled from the wrapped optimizer's callback timing (scipy
`basinhopping`, outside this repository): `cb_global` fires after each hop
but not after the initial minimize, so the snapshots of the initial
minimize and of the first hop both land in the first history list, and each
later hop gets its own list; the `del` of the trailing empty list on the
iterations-exhausted message cancels the extra list appended by the final
callback, yielding the same shape on every exit path. -/
def basin_assembled_certain (chunks : List BasinChunk) :
    List (List (List ℚ)) :=
  match chunks with
  | c1 :: c2 :: rest =>
      (c1.iterates ++ c2.iterates) :: rest.map (fun c => c.iterates)
  | [c1] => [c1.iterates]
  | [] => [[]]

/-- The `parameters_uncertain` lists, assembled chunk by chunk exactly like
`basin_assembled_certain`. -/
def basin_assembled_uncertain (chunks : List BasinChunk) :
    List (List (List ℚ)) :=
  match chunks with
  | c1 :: c2 :: rest =>
      (c1.fevals ++ c2.fevals) :: rest.map (fun c => c.fevals)
  | [c1] => [c1.fevals]
  | [] => [[]]

/-- Embedding of `np.argmin` on a list: index of the first minimal element. -/
def argminAux (best : ℕ) (bestVal : ℚ) (i : ℕ) : List ℚ → ℕ
  | [] => best
  | v :: vs =>
      if v < bestVal then argminAux i v (i + 1) vs
      else argminAux best bestVal (i + 1) vs

/-- Index of the first minimum of a list (`np.argmin`). -/
def argminIdx : List ℚ → ℕ
  | [] => 0
  | x :: xs => argminAux 0 x 1 xs

/-- The history post-processing of `opt_routine_basinhopping` after the
`basinhopping` call returns: split the captured text into per-run chunks,
parse each cost history, prepend the guess to the uncertain log, prepend
each segment's first function-evaluation point to its snapshot list, cut the
first (merged) snapshot list at the length of the first parsed cost history,
and resolve the first point of the second segment by the nearest-cost
heuristic (`costOf` is the aggregate objective closed over the shared
state).  Returns `(result.x_iter, result.fun_iter)`; `none` models an
uncaught indexing exception.  (The Python in-place `insert` loop runs over
`zip(parameters_certain, parameters_uncertain)`; the two lists always have
equal length, so the zip drops nothing.) -/
def opt_routine_basinhopping_histories (costOf : List ℚ → ℚ)
    (guess : List ℚ)
    (parameters_certain parameters_uncertain : List (List (List ℚ)))
    (txt : List Char) : Option (List (List (List ℚ)) × List (List ℚ)) :=
  let cost_iters := (split_lbfgsb_iters txt).map parse_cost_by_iter_lbfgsb
  match parameters_uncertain with
  | [] => none
  | pu0 :: puRest =>
      match (parameters_certain.zip ((guess :: pu0) :: puRest)).mapM
          (fun pcpu => (pcpu.2.head?).map (fun h => h :: pcpu.1)) with
      | none => none
      | some certain2 =>
          match certain2, cost_iters with
          | pc1 :: certainRest, cost0 :: cost1 :: _ =>
              match cost1 with
              | [] => none
              | real_cost :: _ =>
                  let max_length := cost0.length
                  let cfirst := pc1.take max_length
                  let csecond := pc1.drop max_length
                  let usecond := (guess :: pu0).drop max_length
                  match usecond.get?
                      (argminIdx (usecond.map
                        (fun x => |costOf x - real_cost|))) with
                  | none => none
                  | some second_iteration_first =>
                      some (cfirst ::
                          (second_iteration_first :: csecond) :: certainRest,
                        cost_iters)
          | _, _ => none

/-- Embedding of `result.x_iter` and `result.fun_iter` of `opt_routine_basinhopping`, as
a function of the observed per-segment optimizer behavior. -/
def opt_routine_basinhopping_run (costOf : List ℚ → ℚ) (guess : List ℚ)
    (chunks : List BasinChunk) :
    Option (List (List (List ℚ)) × List (List ℚ)) :=
  opt_routine_basinhopping_histories costOf guess
    (basin_assembled_certain chunks) (basin_assembled_uncertain chunks)
    ((chunks.map (fun c => c.txt)).flatten)

lemma argminAux_range (l : List ℚ) : ∀ (best : ℕ) (bv : ℚ) (i : ℕ),
    argminAux best bv i l = best ∨
      (i ≤ argminAux best bv i l ∧ argminAux best bv i l < i + l.length) := by
  induction l with
  | nil =>
      intro best bv i
      left
      rfl
  | cons v vs ih =>
      intro best bv i
      rw [argminAux]
      by_cases h : v < bv
      · rw [if_pos h]
        rcases ih i v (i + 1) with h1 | ⟨h2, h3⟩
        · rw [h1]
          right
          simp
        · right
          simp only [List.length_cons]
          omega
      · rw [if_neg h]
        rcases ih best bv (i + 1) with h1 | ⟨h2, h3⟩
        · left
          exact h1
        · right
          simp only [List.length_cons]
          omega

lemma argminIdx_lt_length (l : List ℚ) (h : l ≠ []) :
    argminIdx l < l.length := by
  cases l with
  | nil => exact absurd rfl h
  | cons x xs =>
      rw [argminIdx]
      rcases argminAux_range xs 0 x 1 with h1 | ⟨h2, h3⟩
      · rw [h1]
        simp
      · simp only [List.length_cons]
        omega

lemma mapM_prepend_heads (rest : List BasinChunk)
    (hfev : ∀ c ∈ rest, c.fevals ≠ []) :
    ((rest.map (fun c => c.iterates)).zip
        (rest.map (fun c => c.fevals))).mapM
        (fun pcpu => (pcpu.2.head?).map (fun h => h :: pcpu.1)) =
      some (rest.map (fun c => c.fevals.headD [] :: c.iterates)) := by
  induction rest with
  | nil => rfl
  | cons c r ih =>
      have hc := hfev c (List.mem_cons_self c r)
      simp only [List.map_cons, List.zip_cons_cons, List.mapM_cons]
      rw [ih (fun d hd => hfev d (List.mem_cons_of_mem c hd))]
      cases hcf : c.fevals with
      | nil => exact absurd hcf hc
      | cons h t => simp [hcf]

lemma forall2_rest_lengths (rest : List BasinChunk)
    (hparse : ∀ c ∈ rest,
      (parse_cost_by_iter_lbfgsb c.txt).length = c.iterates.length + 1) :
    List.Forall₂ (fun a b => a.length = b.length)
      (rest.map (fun c => c.fevals.headD [] :: c.iterates))
      (List.map parse_cost_by_iter_lbfgsb (rest.map (fun c => c.txt))) := by
  induction rest with
  | nil => exact List.Forall₂.nil
  | cons c r ih =>
      refine List.Forall₂.cons ?_ (ih (fun d hd => hparse d
        (List.mem_cons_of_mem c hd)))
      have := hparse c (List.mem_cons_self c r)
      simp only [List.length_cons, this]

/-- C4: for every completed global-driver solve (initial minimize plus at
least one hop, per-segment output parsing to one more cost entry than local
iterations, nonempty function-evaluation logs, and enough raw calls to cut
at the first boundary), every per-restart parameter-history segment of
`result.x_iter` has the same length as the corresponding per-restart
cost-history segment of `result.fun_iter`. -/
theorem global_history_segment_lengths (costOf : List ℚ → ℚ)
    (guess : List ℚ) (c1 c2 : BasinChunk) (rest : List BasinChunk)
    (hsplit : split_lbfgsb_iters
        (((c1 :: c2 :: rest).map (fun c => c.txt)).flatten) =
      (c1 :: c2 :: rest).map (fun c => c.txt))
    (hparse : ∀ c ∈ c1 :: c2 :: rest,
      (parse_cost_by_iter_lbfgsb c.txt).length = c.iterates.length + 1)
    (hfev : ∀ c ∈ rest, c.fevals ≠ [])
    (husecond : c1.iterates.length + 1 ≤
      c1.fevals.length + c2.fevals.length) :
    ∃ xi fi, opt_routine_basinhopping_run costOf guess (c1 :: c2 :: rest) =
        some (xi, fi) ∧
      List.Forall₂ (fun a b => a.length = b.length) xi fi := by
  have hp1 := hparse c1 (by simp)
  have hp2 := hparse c2 (by simp)
  have hprest : ∀ c ∈ rest,
      (parse_cost_by_iter_lbfgsb c.txt).length = c.iterates.length + 1 :=
    fun c hc => hparse c (by simp [hc])
  unfold opt_routine_basinhopping_run basin_assembled_certain
    basin_assembled_uncertain opt_routine_basinhopping_histories
  rw [hsplit]
  simp only [List.map_cons, List.zip_cons_cons, List.mapM_cons,
    List.head?_cons, Option.map_some, mapM_prepend_heads rest hfev]
  rcases hpc2 : parse_cost_by_iter_lbfgsb c2.txt with _ | ⟨real_cost, crest⟩
  · rw [hpc2] at hp2
    simp at hp2
  · have husne : ((guess :: (c1.fevals ++ c2.fevals)).drop
        (parse_cost_by_iter_lbfgsb c1.txt).length) ≠ [] := by
      have hlen : ((guess :: (c1.fevals ++ c2.fevals)).drop
          (parse_cost_by_iter_lbfgsb c1.txt).length).length =
          (guess :: (c1.fevals ++ c2.fevals)).length -
            (parse_cost_by_iter_lbfgsb c1.txt).length := List.length_drop _ _
      intro hnil
      rw [hnil] at hlen
      simp only [List.length_nil, List.length_cons, List.length_append,
        hp1] at hlen
      omega
    set usecond := (guess :: (c1.fevals ++ c2.fevals)).drop
      (parse_cost_by_iter_lbfgsb c1.txt).length with husecond_def
    have hargmin : argminIdx (usecond.map
        (fun x => |costOf x - real_cost|)) < usecond.length := by
      have hne : usecond.map (fun x => |costOf x - real_cost|) ≠ [] := by
        intro hmap
        exact husne (List.map_eq_nil_iff.mp hmap)
      have := argminIdx_lt_length _ hne
      simpa using this
    obtain ⟨sel, hsel⟩ : ∃ v, usecond.get? (argminIdx (usecond.map
        (fun x => |costOf x - real_cost|))) = some v :=
      ⟨_, List.get?_eq_get hargmin⟩
    simp only [Option.map_some', Option.bind_eq_bind, Option.some_bind,
      Option.pure_def]
    rw [← husecond_def]
    simp only [hsel]
    refine ⟨_, _, rfl, ?_⟩
    have hcfirst : ((guess :: (c1.iterates ++ c2.iterates)).take
        (parse_cost_by_iter_lbfgsb c1.txt).length) = guess :: c1.iterates := by
      rw [hp1, List.take_succ_cons, List.take_left]
    have hcsecond : ((guess :: (c1.iterates ++ c2.iterates)).drop
        (parse_cost_by_iter_lbfgsb c1.txt).length) = c2.iterates := by
      rw [hp1, List.drop_succ_cons, List.drop_left]
    rw [hcfirst, hcsecond]
    refine List.Forall₂.cons ?_ (List.Forall₂.cons ?_
      (forall2_rest_lengths rest hprest))
    · simp [hp1]
    · have : (parse_cost_by_iter_lbfgsb c2.txt).length =
          c2.iterates.length + 1 := hp2
      rw [hpc2] at this
      simp only [List.length_cons] at this ⊢
      omega

/-- First concrete basin segment: the initial minimize, one completed
iteration, two function evaluations. -/
def basinChunk1 : BasinChunk where
  iterates := [[1, 1]]
  fevals := [[0, 0], [1, 1]]
  txt :=
    ("RUNNING THE L-BFGS-B CODE\n" ++
      "At iterate    0    f=  1.00000D+00    |proj g|=  1.00000D+00\n" ++
      "At iterate    1    f=  5.00000D-01    |proj g|=  1.00000D-01\n").data

/-- Second concrete basin segment: the first hop, converging at once. -/
def basinChunk2 : BasinChunk where
  iterates := []
  fevals := [[2, 2]]
  txt :=
    ("RUNNING THE L-BFGS-B CODE\n" ++
      "At iterate    0    f=  4.00000D-01    |proj g|=  1.00000D-02\n").data

/-- C4 witness: the per-restart length equality on a concrete two-segment
run. -/
theorem global_history_segment_lengths_witness :
    (split_lbfgsb_iters
        ((([basinChunk1, basinChunk2] : List BasinChunk).map
          (fun c => c.txt)).flatten) =
      ([basinChunk1, basinChunk2] : List BasinChunk).map (fun c => c.txt)) ∧
      (∀ c ∈ ([basinChunk1, basinChunk2] : List BasinChunk),
        (parse_cost_by_iter_lbfgsb c.txt).length = c.iterates.length + 1) ∧
      (∀ c ∈ ([] : List BasinChunk), c.fevals ≠ []) ∧
      (basinChunk1.iterates.length + 1 ≤
        basinChunk1.fevals.length + basinChunk2.fevals.length) ∧
      ∃ xi fi, opt_routine_basinhopping_run (fun _ => 0) [0, 0]
          [basinChunk1, basinChunk2] = some (xi, fi) ∧
        List.Forall₂ (fun a b => a.length = b.length) xi fi :=
  ⟨by decide, by decide, by decide, by decide,
    global_history_segment_lengths (fun _ => 0) [0, 0] basinChunk1
      basinChunk2 [] (by decide) (by decide) (by decide) (by decide)⟩

end Iris
